import Mathlib

/-!
Shallow embedding of the Expressive.JS compile pipeline: the tool registry
(tools.js), the tool-call interpreter, plan-cache decision and render path
(llm-compiler.js).  JavaScript strings are modelled as Lean `String`
(= packed `List Char`), JavaScript argument values as `JVal`, the in-memory
`pages` object as an insertion-ordered association list, and thrown
exceptions as `Except String`.
-/

/-- JavaScript-like primitive values that can appear in a tool-call
argument record. -/
inductive JVal where
  | jstr (s : String)
  | jnum (n : Int)
  | jbool (b : Bool)
  | jnull
deriving DecidableEq, Repr

/-- A parsed tool-argument object: a string-keyed record. -/
abbrev Args := List (String × JVal)

/-- Property lookup on an argument object (`args.key`); `none` plays the
role of JavaScript `undefined`. -/
def getArg (args : Args) (key : String) : Option JVal :=
  match args with
  | [] => none
  | (k, v) :: rest => if k = key then some v else getArg rest key

/-- JavaScript `String(v)` coercion on a primitive value. -/
def jvalToString : JVal → String
  | .jstr s => s
  | .jnum n => toString n
  | .jbool true => "true"
  | .jbool false => "false"
  | .jnull => "null"

/-- JavaScript truthiness of a possibly-absent value, as used by
`if (className) ...` in tools.js. -/
def truthy : Option JVal → Bool
  | none => false
  | some .jnull => false
  | some (.jstr s) => decide (s ≠ "")
  | some (.jnum n) => decide (n ≠ 0)
  | some (.jbool b) => b

/-- JavaScript `s.startsWith(pre)`. -/
def jsStartsWith (s pre : String) : Bool :=
  pre.data.isPrefixOf s.data

/-- JavaScript `Array.prototype.join(sep)` on a list of strings. -/
def jsJoinStrings (sep : String) : List String → String
  | [] => ""
  | [a] => a
  | a :: rest => a ++ sep ++ jsJoinStrings sep rest

/-- Leftmost occurrence of `sep` inside `s`: returns the characters
strictly before the occurrence and the characters strictly after it. -/
def findOcc (sep : List Char) : List Char → Option (List Char × List Char)
  | [] => none
  | c :: rest =>
    if sep.isPrefixOf (c :: rest) then some ([], (c :: rest).drop sep.length)
    else
      match findOcc sep rest with
      | some (pre, post) => some (c :: pre, post)
      | none => none

/-- Fuel-indexed worker for JavaScript `String.prototype.split` with a
string separator: repeatedly cut at the leftmost occurrence of `sep`.
For a non-empty separator each step consumes at least one character
(`findOcc_shorter`), so `s.length` steps of fuel always suffice. -/
def jsSplitFuel (sep : List Char) : Nat → List Char → List (List Char)
  | 0, s => [s]
  | fuel + 1, s =>
    match findOcc sep s with
    | none => [s]
    | some (pre, post) => pre :: jsSplitFuel sep fuel post

/-- JavaScript `s.split(sep)` for a non-empty string separator. -/
def jsSplit (sep s : List Char) : List (List Char) :=
  jsSplitFuel sep s.length s

/-- JavaScript `parts.join(sep)` on character lists. -/
def jsJoin (sep : List Char) : List (List Char) → List Char
  | [] => []
  | [p] => p
  | p :: rest => p ++ sep ++ jsJoin sep rest

/-- ECMAScript `GetSubstitution` for a string search value (no capture
groups): scanning the replacement text, `$$` yields a dollar sign, `$&`
the matched text, a dollar sign followed by a backquote the portion of
the original string before the match, a dollar sign followed by a quote
the portion after it; any other dollar sequence (digits, `$<`, a trailing
dollar sign) stays literal. -/
def getSubstitution (matched before after : List Char) : List Char → List Char
  | [] => []
  | c :: rest =>
    if c = '$' then
      match rest with
      | [] => [c]
      | d :: rest2 =>
        if d = '$' then '$' :: getSubstitution matched before after rest2
        else if d = '&' then matched ++ getSubstitution matched before after rest2
        else if d = '\x60' then before ++ getSubstitution matched before after rest2
        else if d = '\x27' then after ++ getSubstitution matched before after rest2
        else c :: d :: getSubstitution matched before after rest2
    else c :: getSubstitution matched before after rest

/-- JavaScript `s.replace(pat, rep)` with a string pattern and a string
replacement: splice, at the first (leftmost) literal occurrence of `pat`,
the `GetSubstitution` expansion of `rep` against that match; return `s`
unchanged when `pat` does not occur. -/
def jsReplaceFirst (pat rep s : String) : String :=
  match findOcc pat.data s.data with
  | none => s
  | some (pre, post) => String.mk (pre ++ getSubstitution pat.data pre post rep.data ++ post)

/-- `needle` occurs as a literal substring of `hay`. -/
def occursIn (needle hay : String) : Prop :=
  needle.data <:+: hay.data

/-- Boundary independence of a placeholder from a replacement text:
neither occurs inside the other, no proper non-empty leading part of the
placeholder ends the replacement, and no proper non-empty trailing part
of the placeholder starts it.  Under these (decidable) conditions,
joining placeholder-free parts with the replacement cannot recreate the
placeholder across a boundary. -/
def tsIndep (ph ts : List Char) : Prop :=
  ¬ ph <:+: ts ∧
  ¬ ts <:+: ph ∧
  (∀ i, i < ph.length → 0 < i → ¬ ph.take i <:+ ts) ∧
  (∀ i, i < ph.length → 0 < i → ¬ ph.drop i <+: ts)

instance (ph ts : List Char) : Decidable (tsIndep ph ts) := by
  unfold tsIndep
  infer_instance

/-- The dynamic-content kind; the proof of concept supports only
`CURRENT_TIME` (tools.js, `add_dynamic_content`). -/
inductive DynKind where
  | CURRENT_TIME
deriving DecidableEq, Repr

/-- One dynamic-replacement rule attached to a page
(`pages[path].dynamic` entries in tools.js). -/
structure DynRule where
  placeholder : String
  kind : DynKind
deriving DecidableEq, Repr

/-- One entry of the in-memory page store:
`pages[path] = { content, dynamic }`. -/
structure Page where
  content : String
  dynamic : List DynRule
deriving DecidableEq, Repr

/-- The shared layout set by `set_layout` (tools.js). -/
structure Layout where
  header_html : String
  footer_html : String
deriving DecidableEq, Repr

/-- The mutable build context threaded through tool execution: the
`pages` object (insertion-ordered, as a JavaScript object literal is) and
the layout. -/
structure SiteState where
  pages : List (String × Page)
  layout : Layout
deriving DecidableEq, Repr

/-- The default page record `{ content: '', dynamic: [] }` materialized by
`pages[path] = pages[path] || { content: '', dynamic: [] }`. -/
def emptyPage : Page := { content := "", dynamic := [] }

/-- The state at the start of a build (`let pages = {}` and the default
layout, llm-compiler.js lines 186-187). -/
def initState : SiteState := { pages := [], layout := { header_html := "", footer_html := "" } }

/-- `pages[path]` read access. -/
def lookupPage : List (String × Page) → String → Option Page
  | [], _ => none
  | (q, pg) :: rest, p => if q = p then some pg else lookupPage rest p

/-- `pages[path] = pages[path] || emptyPage` followed by a field update:
an existing key keeps its position, a fresh key is appended at the end
(JavaScript object insertion order). -/
def upsertPage (pages : List (String × Page)) (p : String) (f : Page → Page) :
    List (String × Page) :=
  match pages with
  | [] => [(p, f emptyPage)]
  | (q, pg) :: rest => if q = p then (q, f pg) :: rest else (q, pg) :: upsertPage rest p f

/-- `applyDynamicReplacements(html, dynamic)` (llm-compiler.js lines
25-38), with the freshly formatted `new Date().toLocaleString()` value
passed in as the parameter `now`: each rule with a non-empty placeholder
performs `out.split(placeholder).join(now)`, replacing every literal
occurrence. -/
def applyDynamicReplacements (html : String) (dynamic : List DynRule) (now : String) : String :=
  dynamic.foldl
    (fun out entry =>
      if entry.placeholder = "" then out
      else
        match entry.kind with
        | .CURRENT_TIME => String.mk (jsJoin now.data (jsSplit entry.placeholder.data out.data)))
    html

/-- The route handler's layout stitching (llm-compiler.js lines 228-230):
`(header || footer) ? header + body + footer : body`. -/
def stitchLayout (header footer body : String) : String :=
  if header = "" ∧ footer = "" then body else header ++ body ++ footer

/-- Full response for one request to a compiled route: dynamic
substitution at time `now`, then layout stitching. -/
def renderPage (layout : Layout) (pg : Page) (now : String) : String :=
  stitchLayout layout.header_html layout.footer_html
    (applyDynamicReplacements pg.content pg.dynamic now)

/-- The cleaned asset reference (tools.js line 67):
`String(asset).replace(/^\\+|^\/+/, '').replace(/\\/g, '/')` — strip one
leading run of backslashes, or else one leading run of forward slashes,
then turn every remaining backslash into a forward slash. -/
def normAssetRef (asset : String) : String :=
  let stripped :=
    match asset.data with
    | '\x5c' :: _ => asset.data.dropWhile (fun c => c = '\x5c')
    | '/' :: _ => asset.data.dropWhile (fun c => c = '/')
    | l => l
  String.mk (stripped.map (fun c => if c = '\x5c' then '/' else c))

/-- Three-tier asset URL resolution (tools.js lines 68-75). -/
def resolveAssetSrc (asset : String) : String :=
  let norm := normAssetRef asset
  if jsStartsWith norm "assets/" then "/" ++ norm
  else if jsStartsWith norm "images/" then "/assets/" ++ norm
  else "/assets/images/" ++ norm

/-- `create_page(ctx, args)` (tools.js lines 21-34). -/
def tool_create_page (s : SiteState) (args : Args) : Except String SiteState :=
  match getArg args "path" with
  | some (.jstr p) =>
    if jsStartsWith p "/" then
      match getArg args "content" with
      | some (.jstr c) =>
        .ok { s with pages := upsertPage s.pages p (fun pg => { pg with content := c }) }
      | _ => .error "create_page: \"content\" must be a string"
    else .error "create_page: \"path\" must be a string that starts with \"/\""
  | _ => .error "create_page: \"path\" must be a string that starts with \"/\""

/-- One optional `<img>` attribute: pushed only when the argument value is
truthy (tools.js lines 81-83). -/
def optAttr (nm : String) (v : Option JVal) : List String :=
  if truthy v then [nm ++ "=\"" ++ jvalToString (v.getD .jnull) ++ "\""] else []

/-- The generated image-element fragment (tools.js lines 77-84). -/
def imgHtml (args : Args) (src : String) : String :=
  let altStr :=
    match getArg args "alt" with
    | none => ""
    | some .jnull => ""
    | some v => jvalToString v
  let attrs :=
    ["src=\"" ++ src ++ "\"", "alt=\"" ++ altStr ++ "\""]
      ++ optAttr "class" (getArg args "className")
      ++ optAttr "width" (getArg args "width")
      ++ optAttr "height" (getArg args "height")
  "<img " ++ jsJoinStrings " " attrs ++ " />"

/-- The insertion policy of `add_asset` (tools.js lines 88-94):
`replace_placeholder` with a non-empty string placeholder replaces the
first occurrence; `prepend` puts the fragment first; anything else
appends. -/
def insertContent (placement : JVal) (ph : Option JVal) (html current : String) : String :=
  match placement, ph with
  | .jstr "replace_placeholder", some (.jstr p) =>
    if p = "" then current ++ html else jsReplaceFirst p html current
  | .jstr "replace_placeholder", _ => current ++ html
  | .jstr "prepend", _ => html ++ current
  | _, _ => current ++ html

/-- `add_asset(ctx, args)` (tools.js lines 46-95).  The destructuring
default `placement = 'append'` applies only when the property is absent. -/
def tool_add_asset (s : SiteState) (args : Args) : Except String SiteState :=
  match getArg args "path" with
  | some (.jstr p) =>
    if jsStartsWith p "/" then
      match getArg args "asset" with
      | some (.jstr a) =>
        if a = "" then .error "add_asset: \"asset\" must be a non-empty string"
        else
          let src := resolveAssetSrc a
          let html := imgHtml args src
          let placement := (getArg args "placement").getD (.jstr "append")
          let ph := getArg args "placeholder"
          let pages2 :=
            upsertPage s.pages p
              (fun pg => { pg with content := insertContent placement ph html pg.content })
          .ok { s with pages := pages2 }
      | _ => .error "add_asset: \"asset\" must be a non-empty string"
    else .error "add_asset: \"path\" must be a string that starts with \"/\""
  | _ => .error "add_asset: \"path\" must be a string that starts with \"/\""

/-- `add_dynamic_content(ctx, args)` (tools.js lines 102-118). -/
def tool_add_dynamic_content (s : SiteState) (args : Args) : Except String SiteState :=
  match getArg args "path" with
  | some (.jstr p) =>
    if jsStartsWith p "/" then
      match getArg args "placeholder" with
      | some (.jstr ph) =>
        if ph = "" then .error "add_dynamic_content: \"placeholder\" must be a non-empty string"
        else
          match getArg args "type" with
          | some (.jstr "CURRENT_TIME") =>
            let pages2 :=
              upsertPage s.pages p
                (fun pg => { pg with dynamic := pg.dynamic ++ [⟨ph, .CURRENT_TIME⟩] })
            .ok { s with pages := pages2 }
          | _ => .error "add_dynamic_content: only type \"CURRENT_TIME\" is supported in this PoC"
      | _ => .error "add_dynamic_content: \"placeholder\" must be a non-empty string"
    else .error "add_dynamic_content: \"path\" must be a string that starts with \"/\""
  | _ => .error "add_dynamic_content: \"path\" must be a string that starts with \"/\""

/-- `set_layout(ctx, args)` (tools.js lines 125-132): both layout fields
are replaced wholesale; a missing or null field coerces to the empty
string. -/
def tool_set_layout (s : SiteState) (args : Args) : Except String SiteState :=
  let header :=
    match getArg args "header_html" with
    | none => ""
    | some .jnull => ""
    | some v => jvalToString v
  let footer :=
    match getArg args "footer_html" with
    | none => ""
    | some .jnull => ""
    | some v => jvalToString v
  .ok { s with layout := { header_html := header, footer_html := footer } }

/-- The tool registry: `tools[name]` own-property lookup
(tools.js lines 16-133). -/
def lookupTool : String → Option (SiteState → Args → Except String SiteState)
  | "create_page" => some tool_create_page
  | "add_asset" => some tool_add_asset
  | "add_dynamic_content" => some tool_add_dynamic_content
  | "set_layout" => some tool_set_layout
  | _ => none

/-- The raw `arguments` of a tool call as received from the model
response: absent (`null`/`undefined`), an already-parsed object, or a
string that `JSON.parse` rejects (the successfully-parsed-string case is
identified with `robj`, the parsed object). -/
inductive RawArgs where
  | rnull
  | robj (a : Args)
  | rmalformed (raw : String)
deriving DecidableEq, Repr

/-- One tool call of a compiled plan:
`name = call?.function?.name || call?.name` (with `none` for a missing or
falsy name) and the raw arguments. -/
structure ToolCall where
  name : Option String
  args : RawArgs
deriving DecidableEq, Repr

/-- `parseToolArgs(maybeJson)` (llm-compiler.js lines 15-23). -/
def parseToolArgs : RawArgs → Except String Args
  | .rnull => .ok []
  | .robj a => .ok a
  | .rmalformed raw => .error ("Failed to parse tool arguments as JSON: " ++ raw)

/-- The replay loop over the tool-call list (llm-compiler.js lines
193-212): a call with a missing name or a name outside the registry is
skipped with a warning; otherwise the arguments are parsed and the tool
is executed, and any exception raised there propagates out of the loop,
aborting the build. -/
def runCalls : List ToolCall → SiteState → Except String SiteState
  | [], s => .ok s
  | call :: rest, s =>
    match call.name with
    | none => runCalls rest s
    | some n =>
      if n = "" then runCalls rest s
      else
        match lookupTool n with
        | none => runCalls rest s
        | some fn =>
          match parseToolArgs call.args with
          | .error e => .error e
          | .ok a =>
            match fn s a with
            | .error e => .error e
            | .ok s2 => runCalls rest s2

/-- The diagnostic fallback body (llm-compiler.js lines 218-222). -/
def fallbackContent : String :=
  "<!doctype html><html><head><meta charset=\"utf-8\"><title>LLM Compiler</title></head><body><h1>LLM compilation produced no pages</h1><p>Please check your API key and model, or adjust app.txt.</p></body></html>"

/-- The synthesized diagnostic page mounted at the root path when the
replay produced no pages. -/
def fallbackPage : Page := { content := fallbackContent, dynamic := [] }

/-- Route projection (llm-compiler.js lines 215-225): if the page store is
empty after replay, serve exactly the diagnostic page at `/`; otherwise
every page becomes a route keyed by its path. -/
def projectRoutes (s : SiteState) : List (String × Page) :=
  if s.pages.isEmpty then [("/", fallbackPage)] else s.pages

/-- The persisted compiled plan `.cache/compiled-plan.json`
(llm-compiler.js lines 169-176). -/
structure CompiledPlan where
  toolCalls : List ToolCall
  createdAt : String
  sourceMTimeMs : Int
  model : String
  openAIBase : String
  assetsSignature : String
deriving DecidableEq, Repr

/-- What `fs.stat` plus `JSON.parse` yield for an existing cache file:
its modification time, and the parsed plan (`none` when the file is
unreadable, fails to parse, or its `toolCalls` field is not an array). -/
structure CacheStat where
  mtimeMs : Int
  parsed : Option CompiledPlan
deriving DecidableEq, Repr

/-- The cache-validity decision (llm-compiler.js lines 90-108): the plan
is reused iff the cache file exists, its modification time is at least
the source file's modification time, it parses to a plan with a tool-call
array, and its stored `assetsSignature` equals the freshly computed
signature of the current asset inventory. -/
def checkCache (cache : Option CacheStat) (sourceMTimeMs : Int) (currentSig : String) :
    Option (List ToolCall) :=
  match cache with
  | none => none
  | some cs =>
    if sourceMTimeMs ≤ cs.mtimeMs then
      match cs.parsed with
      | none => none
      | some plan =>
        if plan.assetsSignature = currentSig then some plan.toolCalls else none
    else none

/-- Result of the plan-acquisition phase: the tool calls to replay and
whether the remote model had to be called. -/
structure PlanResult where
  toolCalls : List ToolCall
  usedNetwork : Bool
deriving DecidableEq, Repr

/-- Plan acquisition (llm-compiler.js lines 88-182): reuse the cached
plan when the cache check accepts it (skipping the remote call entirely),
otherwise run a fresh compilation against the remote model, whose
extracted tool calls are the parameter `llmToolCalls`. -/
def acquirePlan (cache : Option CacheStat) (sourceMTimeMs : Int) (currentSig : String)
    (llmToolCalls : List ToolCall) : PlanResult :=
  match checkCache cache sourceMTimeMs currentSig with
  | some tc => { toolCalls := tc, usedNetwork := false }
  | none => { toolCalls := llmToolCalls, usedNetwork := true }

/-- A concrete persisted plan used to exercise the cache decision. -/
def c1Plan : CompiledPlan :=
  { toolCalls := [], createdAt := "t", sourceMTimeMs := 3, model := "m", openAIBase := "b",
    assetsSignature := "SIG" }

/-- A concrete cache-file stat for the same plan. -/
def c1Stat : CacheStat := { mtimeMs := 10, parsed := some c1Plan }
/-- The `CURRENT_TIME` placeholder of the worked example in the
documentation. -/
def ctPlaceholder : String := "\x7b\x7bCURRENT_TIME\x7d\x7d"

/-- The dynamic rule registered by
`add_dynamic_content({ placeholder: ctPlaceholder, type: 'CURRENT_TIME' })`. -/
def ctRule : DynRule := { placeholder := ctPlaceholder, kind := .CURRENT_TIME }

/-- Arguments of an `add_asset` call using the `replace_placeholder`
insertion policy. -/
def replaceArgs (p a ph : String) : Args :=
  [("path", .jstr p), ("asset", .jstr a),
   ("placement", .jstr "replace_placeholder"), ("placeholder", .jstr ph)]

/-- Arguments of a well-formed `create_page` call. -/
def cpArgs (p c : String) : Args := [("path", .jstr p), ("content", .jstr c)]

/-- A well-formed `create_page` tool call. -/
def cpCall (p c : String) : ToolCall := { name := some "create_page", args := .robj (cpArgs p c) }

/-- A concrete human-readable timestamp of the shape `toLocaleString()`
produces. -/
def c5Ts : String := "4/2/2026, 3:15:07 PM"

/-- Arguments of an `add_asset` call whose `alt` text contains the
JavaScript replacement pattern for the matched string. -/
def c7CexArgs : Args :=
  [("path", .jstr "/g"), ("asset", .jstr "pic.png"), ("alt", .jstr "$&"),
   ("placement", .jstr "replace_placeholder"), ("placeholder", .jstr "@@P@@")]

/-- A build state with one page whose content holds the placeholder
targeted by `c7CexArgs`. -/
def c7CexState : SiteState :=
  { pages := [("/g", { content := "x@@P@@y", dynamic := [] })],
    layout := { header_html := "", footer_html := "" } }


/-- Decidable equality for the result of a replay, so concrete runs can be
checked by evaluation. -/
instance {ε α : Type} [DecidableEq ε] [DecidableEq α] : DecidableEq (Except ε α) := fun x y =>
  match x, y with
  | .error a, .error b =>
    if h : a = b then isTrue (by rw [h]) else isFalse (fun hc => h (Except.error.inj hc))
  | .ok a, .ok b =>
    if h : a = b then isTrue (by rw [h]) else isFalse (fun hc => h (Except.ok.inj hc))
  | .error _, .ok _ => isFalse (fun hc => Except.noConfusion hc)
  | .ok _, .error _ => isFalse (fun hc => Except.noConfusion hc)

/-- The replay loop presented as an operational relation on (remaining
tool calls, build state, outcome), mirroring the case analysis of
llm-compiler.js lines 193-212 step by step. -/
inductive ReplayRel : List ToolCall → SiteState → Except String SiteState → Prop where
  | nil : ∀ s, ReplayRel [] s (.ok s)
  | skipNoName : ∀ c rest s r, c.name = none →
      ReplayRel rest s r → ReplayRel (c :: rest) s r
  | skipEmptyName : ∀ c rest s r, c.name = some "" →
      ReplayRel rest s r → ReplayRel (c :: rest) s r
  | skipUnknown : ∀ c rest s r n, c.name = some n → n ≠ "" → lookupTool n = none →
      ReplayRel rest s r → ReplayRel (c :: rest) s r
  | errArgs : ∀ c rest s n fn e, c.name = some n → n ≠ "" → lookupTool n = some fn →
      parseToolArgs c.args = .error e → ReplayRel (c :: rest) s (.error e)
  | errTool : ∀ c rest s n fn a e, c.name = some n → n ≠ "" → lookupTool n = some fn →
      parseToolArgs c.args = .ok a → fn s a = .error e → ReplayRel (c :: rest) s (.error e)
  | okTool : ∀ c rest s n fn a s2 r, c.name = some n → n ≠ "" → lookupTool n = some fn →
      parseToolArgs c.args = .ok a → fn s a = .ok s2 →
      ReplayRel rest s2 r → ReplayRel (c :: rest) s r

theorem string_ext {a b : String} (h : a.data = b.data) : a = b := by
  cases a
  cases b
  exact congrArg String.mk h

theorem string_data_append (a b : String) : (a ++ b).data = a.data ++ b.data := rfl

theorem string_append_empty (s : String) : s ++ "" = s :=
  string_ext (by rw [string_data_append]; exact List.append_nil s.data)

theorem string_empty_append (s : String) : "" ++ s = s := rfl

/-- `findOcc` really returns a decomposition of its input around an
occurrence of the separator. -/
theorem findOcc_eq_some (sep : List Char) :
    ∀ s pre post, findOcc sep s = some (pre, post) → s = pre ++ sep ++ post := by
  intro s
  induction s with
  | nil => intro pre post h; simp [findOcc] at h
  | cons c rest ih =>
    intro pre post h
    by_cases hp : sep.isPrefixOf (c :: rest)
    · rw [findOcc, if_pos hp] at h
      obtain ⟨h1, h2⟩ := Prod.mk.injEq .. ▸ Option.some.inj h
      obtain ⟨t, ht⟩ := List.isPrefixOf_iff_prefix.mp hp
      subst h1
      rw [← h2, ← ht, List.nil_append, List.drop_left]
    · rw [findOcc, if_neg hp] at h
      cases hfo : findOcc sep rest with
      | none => rw [hfo] at h; exact absurd h (by simp)
      | some pp =>
        obtain ⟨pre1, post1⟩ := pp
        rw [hfo] at h
        obtain ⟨h1, h2⟩ := Prod.mk.injEq .. ▸ Option.some.inj h
        subst h1
        subst h2
        have := ih pre1 post1 hfo
        rw [List.cons_append, List.cons_append, ← this]

/-- When the separator is non-empty, the suffix returned by `findOcc` is
strictly shorter than the input. -/
theorem findOcc_shorter (sep : List Char) (hsep : sep ≠ []) (s pre post : List Char)
    (h : findOcc sep s = some (pre, post)) : post.length < s.length := by
  have hd := findOcc_eq_some sep s pre post h
  have hlen : s.length = pre.length + sep.length + post.length := by
    rw [hd]; simp [List.length_append]; omega
  have hpos : 0 < sep.length := List.length_pos.mpr hsep
  omega

/-- `findOcc` fails exactly when the separator does not occur. -/
theorem findOcc_none_iff (sep : List Char) (hsep : sep ≠ []) :
    ∀ s, findOcc sep s = none ↔ ¬ sep <:+: s := by
  intro s
  induction s with
  | nil =>
    constructor
    · intro _ hinf
      obtain ⟨u, v, huv⟩ := hinf
      have h1 := List.append_eq_nil.mp huv
      have h2 := List.append_eq_nil.mp h1.1
      exact hsep h2.2
    · intro _; simp [findOcc]
  | cons c rest ih =>
    constructor
    · intro h hinf
      by_cases hp : sep.isPrefixOf (c :: rest)
      · rw [findOcc, if_pos hp] at h; exact absurd h (by simp)
      · rw [findOcc, if_neg hp] at h
        rcases List.infix_cons_iff.mp hinf with hpre | hinf2
        · exact hp (List.isPrefixOf_iff_prefix.mpr hpre)
        · cases hfo : findOcc sep rest with
          | none => exact (ih.mp hfo) hinf2
          | some pp => obtain ⟨a, b⟩ := pp; rw [hfo] at h; exact absurd h (by simp)
    · intro hni
      by_cases hp : sep.isPrefixOf (c :: rest)
      · exact absurd (List.IsPrefix.isInfix (List.isPrefixOf_iff_prefix.mp hp)) hni
      · rw [findOcc, if_neg hp]
        have hrest : findOcc sep rest = none :=
          ih.mpr (fun hinf2 => hni (List.infix_cons_iff.mpr (Or.inr hinf2)))
        rw [hrest]

/-- `findOcc` finds the leftmost occurrence: any other decomposition has
at least as long a prefix. -/
theorem findOcc_leftmost (sep : List Char) :
    ∀ s pre post, findOcc sep s = some (pre, post) →
      ∀ pre2 post2, s = pre2 ++ sep ++ post2 → pre.length ≤ pre2.length := by
  intro s
  induction s with
  | nil => intro pre post h; simp [findOcc] at h
  | cons c rest ih =>
    intro pre post h pre2 post2 heq
    by_cases hp : sep.isPrefixOf (c :: rest)
    · rw [findOcc, if_pos hp] at h
      obtain ⟨h1, _⟩ := Prod.mk.injEq .. ▸ Option.some.inj h
      subst h1
      exact Nat.zero_le _
    · rw [findOcc, if_neg hp] at h
      cases pre2 with
      | nil =>
        exfalso
        apply hp
        apply List.isPrefixOf_iff_prefix.mpr
        exact ⟨post2, by rw [List.nil_append] at heq; exact heq.symm⟩
      | cons d pre2tl =>
        cases hfo : findOcc sep rest with
        | none => rw [hfo] at h; exact absurd h (by simp)
        | some pp =>
          obtain ⟨pre1, post1⟩ := pp
          rw [hfo] at h
          obtain ⟨h1, _⟩ := Prod.mk.injEq .. ▸ Option.some.inj h
          subst h1
          have heq2 : rest = pre2tl ++ sep ++ post2 := by
            have : c :: rest = d :: (pre2tl ++ sep ++ post2) := by
              rw [heq]; simp [List.cons_append]
            exact (List.cons.injEq .. ▸ this).2
          have := ih pre1 post1 hfo pre2tl post2 heq2
          simpa using Nat.succ_le_succ this

/-- `jsJoin` on a list with at least two parts peels off the head. -/
theorem jsJoin_cons (sep p : List Char) (l : List (List Char)) (h : l ≠ []) :
    jsJoin sep (p :: l) = p ++ sep ++ jsJoin sep l := by
  cases l with
  | nil => exact absurd rfl h
  | cons q rest => rfl

/-- The split worker never returns an empty list of parts. -/
theorem jsSplitFuel_ne_nil (sep : List Char) (fuel : Nat) (s : List Char) :
    jsSplitFuel sep fuel s ≠ [] := by
  cases fuel with
  | zero => simp [jsSplitFuel]
  | succ f =>
    cases hfo : findOcc sep s with
    | none => simp [jsSplitFuel, hfo]
    | some pp =>
      obtain ⟨pre, post⟩ := pp
      simp [jsSplitFuel, hfo]

/-- Split correctness: re-joining the parts with the separator restores
the input, so the cuts sit exactly at literal occurrences. -/
theorem jsSplitFuel_join (sep : List Char) (hsep : sep ≠ []) :
    ∀ fuel s, s.length ≤ fuel → jsJoin sep (jsSplitFuel sep fuel s) = s := by
  intro fuel
  induction fuel with
  | zero =>
    intro s hs
    have hs0 : s = [] := List.length_eq_zero.mp (Nat.le_zero.mp hs)
    subst hs0
    rfl
  | succ f ih =>
    intro s hs
    cases hfo : findOcc sep s with
    | none => simp [jsSplitFuel, hfo, jsJoin]
    | some pp =>
      obtain ⟨pre, post⟩ := pp
      have hlt := findOcc_shorter sep hsep s pre post hfo
      have hle : post.length ≤ f := by omega
      rw [show jsSplitFuel sep (f + 1) s = pre :: jsSplitFuel sep f post from by
            simp [jsSplitFuel, hfo]]
      rw [jsJoin_cons sep pre _ (jsSplitFuel_ne_nil sep f post)]
      rw [ih post hle]
      exact (findOcc_eq_some sep s pre post hfo).symm

/-- The text before the leftmost occurrence contains no occurrence. -/
theorem findOcc_pre_free (sep : List Char) (hsep : sep ≠ []) (s pre post : List Char)
    (hfo : findOcc sep s = some (pre, post)) : ¬ sep <:+: pre := by
  intro hinf
  obtain ⟨u, v, huv⟩ := hinf
  have hs := findOcc_eq_some sep s pre post hfo
  have hdecomp : s = u ++ sep ++ (v ++ sep ++ post) := by
    rw [hs, ← huv]
    simp [List.append_assoc]
  have hle := findOcc_leftmost sep s pre post hfo u (v ++ sep ++ post) hdecomp
  have hlen : pre.length = u.length + sep.length + v.length := by
    rw [← huv]
    simp [List.length_append]
    omega
  have hpos : 0 < sep.length := List.length_pos.mpr hsep
  omega

/-- No part produced by the split contains the separator: every literal
occurrence was cut out. -/
theorem jsSplitFuel_parts_free (sep : List Char) (hsep : sep ≠ []) :
    ∀ fuel s, s.length ≤ fuel →
      ∀ part ∈ jsSplitFuel sep fuel s, ¬ sep <:+: part := by
  intro fuel
  induction fuel with
  | zero =>
    intro s hs part hp hinf
    have hs0 : s = [] := List.length_eq_zero.mp (Nat.le_zero.mp hs)
    subst hs0
    simp [jsSplitFuel] at hp
    subst hp
    obtain ⟨u, v, huv⟩ := hinf
    have h1 := List.append_eq_nil.mp huv
    have h2 := List.append_eq_nil.mp h1.1
    exact hsep h2.2
  | succ f ih =>
    intro s hs part hp hinf
    cases hfo : findOcc sep s with
    | none =>
      rw [show jsSplitFuel sep (f + 1) s = [s] from by simp [jsSplitFuel, hfo]] at hp
      simp at hp
      rw [hp] at hinf
      exact ((findOcc_none_iff sep hsep s).mp hfo) hinf
    | some pp =>
      obtain ⟨pre, post⟩ := pp
      rw [show jsSplitFuel sep (f + 1) s = pre :: jsSplitFuel sep f post from by
            simp [jsSplitFuel, hfo]] at hp
      rcases List.mem_cons.mp hp with hpp | hpp
      · rw [hpp] at hinf
        exact findOcc_pre_free sep hsep s pre post hfo hinf
      · have hlt := findOcc_shorter sep hsep s pre post hfo
        exact ih post (by omega) part hpp hinf

/-- An occurrence inside a concatenation lies in the left part, in the
right part, or spans the boundary with a non-empty piece on each side. -/
theorem infix_append_cases {α : Type} (x y w : List α) (h : w <:+: x ++ y) :
    w <:+: x ∨ w <:+: y ∨
      ∃ w1 w2, w = w1 ++ w2 ∧ w1 ≠ [] ∧ w2 ≠ [] ∧ w1 <:+ x ∧ w2 <+: y := by
  obtain ⟨u, v, huv⟩ := h
  have h1 : u ++ (w ++ v) = x ++ y := by
    rw [← List.append_assoc]
    exact huv
  rcases List.append_eq_append_iff.mp h1 with ⟨a, hx, hwv⟩ | ⟨c, _, hy⟩
  · rcases List.append_eq_append_iff.mp hwv with ⟨b, ha, _⟩ | ⟨c, hw, hy2⟩
    · left
      refine ⟨u, b, ?_⟩
      rw [hx, ha]
      simp [List.append_assoc]
    · by_cases hA : a = []
      · subst hA
        right
        left
        refine ⟨[], v, ?_⟩
        rw [List.nil_append] at hw
        rw [List.nil_append, hw]
        exact hy2.symm
      · by_cases hC : c = []
        · subst hC
          left
          refine ⟨u, [], ?_⟩
          rw [List.append_nil] at hw
          rw [← hw] at hx
          rw [hx]
          simp
        · right
          right
          exact ⟨a, c, hw, hA, hC, ⟨u, hx.symm⟩, ⟨v, hy2.symm⟩⟩
  · right
    left
    refine ⟨c, v, ?_⟩
    rw [List.append_assoc]
    exact hy.symm

/-- Joining placeholder-free parts with a boundary-independent
replacement text yields a string with no occurrence of the placeholder. -/
theorem jsJoin_not_contains (ph ts : List Char) (hph : ph ≠ []) (hind : tsIndep ph ts) :
    ∀ parts, (∀ part ∈ parts, ¬ ph <:+: part) → ¬ ph <:+: jsJoin ts parts := by
  obtain ⟨hD, hC, hB, hA⟩ := hind
  intro parts
  induction parts with
  | nil =>
    intro _ hinf
    obtain ⟨u, v, huv⟩ := hinf
    have h1 := List.append_eq_nil.mp huv
    have h2 := List.append_eq_nil.mp h1.1
    exact hph h2.2
  | cons p rest ih =>
    intro hfree hinf
    cases rest with
    | nil => exact hfree p (by simp) hinf
    | cons q rest2 =>
      have hJ : jsJoin ts (p :: q :: rest2) = p ++ (ts ++ jsJoin ts (q :: rest2)) := by
        rw [jsJoin_cons ts p (q :: rest2) (by simp), List.append_assoc]
      rw [hJ] at hinf
      rcases infix_append_cases p (ts ++ jsJoin ts (q :: rest2)) ph hinf with
        h1 | h2 | ⟨w1, w2, hw, hw1, hw2, hsuf, hpre⟩
      · exact hfree p (by simp) h1
      · rcases infix_append_cases ts (jsJoin ts (q :: rest2)) ph h2 with
          h3 | h4 | ⟨w1, w2, hw, hw1, hw2, hsuf, hpre⟩
        · exact hD h3
        · exact ih (fun part hp2 => hfree part (List.mem_cons_of_mem p hp2)) h4
        · have hlen : w1.length < ph.length := by
            rw [hw]
            simp [List.length_append]
            exact List.length_pos.mpr hw2
          have h0 : 0 < w1.length := List.length_pos.mpr hw1
          have htake : ph.take w1.length = w1 := by
            rw [hw]
            exact List.take_left w1 w2
          exact hB w1.length hlen h0 (by rw [htake]; exact hsuf)
      · have hts_pre : ts <+: ts ++ jsJoin ts (q :: rest2) := List.prefix_append ts _
        rcases List.prefix_or_prefix_of_prefix hpre hts_pre with hcase | hcase
        · have hlen : w1.length < ph.length := by
            rw [hw]
            simp [List.length_append]
            exact List.length_pos.mpr hw2
          have h0 : 0 < w1.length := List.length_pos.mpr hw1
          have hdrop : ph.drop w1.length = w2 := by
            rw [hw]
            exact List.drop_left w1 w2
          exact hA w1.length hlen h0 (by rw [hdrop]; exact hcase)
        · obtain ⟨w3, hw3⟩ := hcase
          refine hC ⟨w1, w3, ?_⟩
          rw [hw, ← hw3]
          simp [List.append_assoc]

/-- A replacement text without a dollar character is substituted
verbatim. -/
theorem getSubstitution_of_no_dollar (matched before after : List Char) :
    ∀ rep, '$' ∉ rep → getSubstitution matched before after rep = rep := by
  intro rep
  induction rep with
  | nil => intro _; rfl
  | cons c rest ih =>
    intro h
    have hc : c ≠ '$' := fun hc => h (by rw [hc]; exact List.mem_cons_self _ _)
    have hrest : '$' ∉ rest := fun hr => h (List.mem_cons_of_mem c hr)
    unfold getSubstitution
    rw [if_neg hc, ih hrest]

/-- Updating a stored page is visible at its own key. -/
theorem lookupPage_upsert_self (pages : List (String × Page)) (p : String) (f : Page → Page) :
    lookupPage (upsertPage pages p f) p =
      some (f ((lookupPage pages p).getD emptyPage)) := by
  induction pages with
  | nil => simp [upsertPage, lookupPage]
  | cons hd rest ih =>
    obtain ⟨q, pg⟩ := hd
    by_cases hq : q = p
    · subst hq
      simp [upsertPage, lookupPage]
    · simp [upsertPage, lookupPage, hq, ih]

/-- Updating one key leaves every other key untouched. -/
theorem lookupPage_upsert_other (pages : List (String × Page)) (p q : String) (f : Page → Page)
    (hq : q ≠ p) : lookupPage (upsertPage pages p f) q = lookupPage pages q := by
  have hpq : p ≠ q := fun h => hq h.symm
  induction pages with
  | nil => simp [upsertPage, lookupPage, hpq]
  | cons hd rest ih =>
    obtain ⟨k, pg⟩ := hd
    by_cases hk : k = p
    · subst hk
      simp [upsertPage, lookupPage, hpq]
    · simp only [upsertPage, if_neg hk, lookupPage]
      by_cases hkq : k = q
      · simp [hkq]
      · simp [hkq, ih]

/-- The replay relation agrees with the replay function. -/
theorem replayRel_eq_runCalls {calls : List ToolCall} {s : SiteState}
    {r : Except String SiteState} (h : ReplayRel calls s r) : r = runCalls calls s := by
  induction h with
  | nil s => rfl
  | skipNoName c rest s r hn _ ih => rw [ih]; simp [runCalls, hn]
  | skipEmptyName c rest s r hn _ ih => rw [ih]; simp [runCalls, hn]
  | skipUnknown c rest s r n hn hne hl _ ih => rw [ih]; simp [runCalls, hn, hne, hl]
  | errArgs c rest s n fn e hn hne hl hp => simp [runCalls, hn, hne, hl, hp]
  | errTool c rest s n fn a e hn hne hl hp hf => simp [runCalls, hn, hne, hl, hp, hf]
  | okTool c rest s n fn a s2 r hn hne hl hp hf _ ih => rw [ih]; simp [runCalls, hn, hne, hl, hp, hf]

/-- The replay relation is total: every call list relates its start state
to the outcome computed by the replay function. -/
theorem replayRel_total (calls : List ToolCall) (s : SiteState) :
    ReplayRel calls s (runCalls calls s) := by
  induction calls generalizing s with
  | nil => exact .nil s
  | cons c rest ih =>
    cases hn : c.name with
    | none =>
      have he : runCalls (c :: rest) s = runCalls rest s := by simp [runCalls, hn]
      rw [he]
      exact .skipNoName c rest s _ hn (ih s)
    | some n =>
      by_cases hne : n = ""
      · subst hne
        have he : runCalls (c :: rest) s = runCalls rest s := by simp [runCalls, hn]
        rw [he]
        exact .skipEmptyName c rest s _ hn (ih s)
      · cases hl : lookupTool n with
        | none =>
          have he : runCalls (c :: rest) s = runCalls rest s := by
            simp [runCalls, hn, hne, hl]
          rw [he]
          exact .skipUnknown c rest s _ n hn hne hl (ih s)
        | some fn =>
          cases hp : parseToolArgs c.args with
          | error e =>
            have he : runCalls (c :: rest) s = .error e := by simp [runCalls, hn, hne, hl, hp]
            rw [he]
            exact .errArgs c rest s n fn e hn hne hl hp
          | ok a =>
            cases hf : fn s a with
            | error e =>
              have he : runCalls (c :: rest) s = .error e := by
                simp [runCalls, hn, hne, hl, hp, hf]
              rw [he]
              exact .errTool c rest s n fn a e hn hne hl hp hf
            | ok s2 =>
              have he : runCalls (c :: rest) s = runCalls rest s2 := by
                simp [runCalls, hn, hne, hl, hp, hf]
              rw [he]
              exact .okTool c rest s n fn a s2 _ hn hne hl hp hf (ih s2)

/-- C1: a compiled plan is reused (and the remote model call skipped) if
and only if the plan's fingerprint — the cache file's modification time,
which is what llm-compiler.js line 95 compares — is at least as new as the
current source file's modification time AND the stored `assetsSignature`
equals the freshly computed signature of the current asset inventory;
failing either test rejects the cache and runs a fresh compilation. -/
theorem claim_c1_cache_validity (cs : CacheStat) (plan : CompiledPlan) (smt : Int)
    (sig : String) (fresh : List ToolCall) (hp : cs.parsed = some plan) :
    ((acquirePlan (some cs) smt sig fresh).usedNetwork = false ↔
      smt ≤ cs.mtimeMs ∧ plan.assetsSignature = sig) ∧
    (smt ≤ cs.mtimeMs ∧ plan.assetsSignature = sig →
      acquirePlan (some cs) smt sig fresh = { toolCalls := plan.toolCalls, usedNetwork := false }) ∧
    (¬ (smt ≤ cs.mtimeMs ∧ plan.assetsSignature = sig) →
      acquirePlan (some cs) smt sig fresh = { toolCalls := fresh, usedNetwork := true }) := by
  obtain ⟨mt, parsed⟩ := cs
  simp only [CacheStat.parsed] at hp
  subst hp
  by_cases ht : smt ≤ mt
  · by_cases hs : plan.assetsSignature = sig
    · simp [acquirePlan, checkCache, ht, hs]
    · simp [acquirePlan, checkCache, ht, hs]
  · simp [acquirePlan, checkCache, ht]

theorem claim_c1_cache_validity_witness :
    acquirePlan (some c1Stat) 3 "SIG" [] = { toolCalls := [], usedNetwork := false } :=
  (claim_c1_cache_validity c1Stat c1Plan 3 "SIG" [] rfl).2.1 ⟨by decide, rfl⟩

/-- C4: the three-tier asset-reference normalization of `add_asset`: a
cleaned reference already under `assets/` is used as-is, one under
`images/` is mounted under the asset root, anything else lands in the
default images subfolder; in particular `"test.png"`,
`"images/test.png"` and `"assets/images/test.png"` all resolve to
`"/assets/images/test.png"`. -/
theorem claim_c4_asset_normalization :
    (resolveAssetSrc "test.png" = "/assets/images/test.png" ∧
     resolveAssetSrc "images/test.png" = "/assets/images/test.png" ∧
     resolveAssetSrc "assets/images/test.png" = "/assets/images/test.png") ∧
    (∀ a, jsStartsWith (normAssetRef a) "assets/" = true →
      resolveAssetSrc a = "/" ++ normAssetRef a) ∧
    (∀ a, jsStartsWith (normAssetRef a) "assets/" = false →
      jsStartsWith (normAssetRef a) "images/" = true →
      resolveAssetSrc a = "/assets/" ++ normAssetRef a) ∧
    (∀ a, jsStartsWith (normAssetRef a) "assets/" = false →
      jsStartsWith (normAssetRef a) "images/" = false →
      resolveAssetSrc a = "/assets/images/" ++ normAssetRef a) := by
  refine ⟨⟨by decide, by decide, by decide⟩, ?_, ?_, ?_⟩
  · intro a h
    simp [resolveAssetSrc, h]
  · intro a h1 h2
    simp [resolveAssetSrc, h1, h2]
  · intro a h1 h2
    simp [resolveAssetSrc, h1, h2]

theorem claim_c4_asset_normalization_witness :
    jsStartsWith (normAssetRef "assets/images/a.png") "assets/" = true ∧
    resolveAssetSrc "assets/images/a.png" = "/" ++ normAssetRef "assets/images/a.png" :=
  ⟨by decide, claim_c4_asset_normalization.2.1 "assets/images/a.png" (by decide)⟩

/-- C6: every rendered response is exactly
`header_html ++ substituted_body ++ footer_html`, and with both layout
fields empty it is exactly the substituted body. -/
theorem claim_c6_layout_stitching (l : Layout) (pg : Page) (now : String) :
    renderPage l pg now =
      l.header_html ++ applyDynamicReplacements pg.content pg.dynamic now ++ l.footer_html ∧
    (l.header_html = "" → l.footer_html = "" →
      renderPage l pg now = applyDynamicReplacements pg.content pg.dynamic now) := by
  constructor
  · unfold renderPage stitchLayout
    by_cases h : l.header_html = "" ∧ l.footer_html = ""
    · rw [if_pos h, h.1, h.2, string_empty_append, string_append_empty]
    · rw [if_neg h]
  · intro h1 h2
    unfold renderPage stitchLayout
    rw [if_pos ⟨h1, h2⟩]

theorem claim_c6_layout_stitching_witness :
    renderPage { header_html := "<H>", footer_html := "<F>" } { content := "B", dynamic := [] } "t"
      = "<H>" ++ applyDynamicReplacements "B" [] "t" ++ "<F>" :=
  (claim_c6_layout_stitching { header_html := "<H>", footer_html := "<F>" }
    { content := "B", dynamic := [] } "t").1

/-- C10: `create_page` on an existing path overwrites only that page's
`content`; its dynamic rules, every other page, and the layout are
untouched. -/
theorem claim_c10_create_page_frame (s : SiteState) (p c : String) (pg : Page)
    (hpath : jsStartsWith p "/" = true) (hex : lookupPage s.pages p = some pg) :
    ∃ s2, tool_create_page s [("path", .jstr p), ("content", .jstr c)] = .ok s2 ∧
      lookupPage s2.pages p = some { content := c, dynamic := pg.dynamic } ∧
      (∀ q, q ≠ p → lookupPage s2.pages q = lookupPage s.pages q) ∧
      s2.layout = s.layout := by
  refine ⟨{ s with pages := upsertPage s.pages p (fun pg0 => { pg0 with content := c }) },
    ?_, ?_, ?_, rfl⟩
  · simp [tool_create_page, getArg, hpath]
  · rw [lookupPage_upsert_self, hex]
    rfl
  · intro q hqp
    exact lookupPage_upsert_other s.pages p q _ hqp

theorem claim_c10_create_page_frame_witness :
    lookupPage [("/x", { content := "old", dynamic := [⟨"@@T@@", .CURRENT_TIME⟩] }),
        ("/y", { content := "Y", dynamic := [] })] "/x"
      = some { content := "old", dynamic := [⟨"@@T@@", .CURRENT_TIME⟩] } ∧
    (∃ s2, tool_create_page
        { pages := [("/x", { content := "old", dynamic := [⟨"@@T@@", .CURRENT_TIME⟩] }),
            ("/y", { content := "Y", dynamic := [] })],
          layout := { header_html := "H", footer_html := "F" } }
        [("path", .jstr "/x"), ("content", .jstr "new")] = .ok s2 ∧
      lookupPage s2.pages "/x"
        = some { content := "new", dynamic := [⟨"@@T@@", .CURRENT_TIME⟩] } ∧
      (∀ q, q ≠ "/x" → lookupPage s2.pages q = lookupPage
        [("/x", { content := "old", dynamic := [⟨"@@T@@", .CURRENT_TIME⟩] }),
            ("/y", { content := "Y", dynamic := [] })] q) ∧
      s2.layout = { header_html := "H", footer_html := "F" }) :=
  ⟨by decide,
   claim_c10_create_page_frame
    { pages := [("/x", { content := "old", dynamic := [⟨"@@T@@", .CURRENT_TIME⟩] }),
        ("/y", { content := "Y", dynamic := [] })],
      layout := { header_html := "H", footer_html := "F" } }
    "/x" "new" { content := "old", dynamic := [⟨"@@T@@", .CURRENT_TIME⟩] }
    (by decide) (by decide)⟩

/-- C9: the replay relation is deterministic — two replays of the same
ordered tool-call list from a fresh Site Model reach the same outcome,
and hence project to identical route tables. -/
theorem claim_c9_determinism (calls : List ToolCall) (r1 r2 : Except String SiteState)
    (h1 : ReplayRel calls initState r1) (h2 : ReplayRel calls initState r2) :
    r1 = r2 ∧ Except.map projectRoutes r1 = Except.map projectRoutes r2 := by
  have e1 := replayRel_eq_runCalls h1
  have e2 := replayRel_eq_runCalls h2
  exact ⟨e1.trans e2.symm, by rw [e1, e2]⟩

theorem claim_c9_determinism_witness :
    runCalls [cpCall "/" "hi"] initState = runCalls [cpCall "/" "hi"] initState ∧
    Except.map projectRoutes (runCalls [cpCall "/" "hi"] initState) =
      Except.map projectRoutes (runCalls [cpCall "/" "hi"] initState) :=
  claim_c9_determinism [cpCall "/" "hi"] _ _
    (replayRel_total [cpCall "/" "hi"] initState)
    (replayRel_total [cpCall "/" "hi"] initState)

/-- C5: for every stored body and every `CURRENT_TIME` rule with a
non-empty placeholder, the rendered body is the placeholder-split parts
of the stored body joined with the request-time timestamp (the wall
clock is external, so the timestamp is a parameter): re-joining the
parts with the placeholder restores the body, so the cuts sit exactly at
the literal occurrences, every one of which is replaced; no part
contains the placeholder; and for any timestamp boundary-independent of
the placeholder — as a `toLocaleString()` timestamp is of
`ctPlaceholder` — the rendered output never contains the literal
placeholder. -/
theorem claim_c5_current_time (body ph ts : String) (hph : ph ≠ "") (_hts : ts ≠ "")
    (hind : tsIndep ph.data ts.data) :
    applyDynamicReplacements body [{ placeholder := ph, kind := .CURRENT_TIME }] ts =
      String.mk (jsJoin ts.data (jsSplit ph.data body.data)) ∧
    jsJoin ph.data (jsSplit ph.data body.data) = body.data ∧
    (∀ part ∈ jsSplit ph.data body.data, ¬ ph.data <:+: part) ∧
    ¬ occursIn ph (String.mk (jsJoin ts.data (jsSplit ph.data body.data))) := by
  have hphd : ph.data ≠ [] := fun h => hph (string_ext h)
  refine ⟨?_, ?_, ?_, ?_⟩
  · simp [applyDynamicReplacements, hph]
  · exact jsSplitFuel_join ph.data hphd body.data.length body.data (le_refl _)
  · exact fun part hp =>
      jsSplitFuel_parts_free ph.data hphd body.data.length body.data (le_refl _) part hp
  · intro hocc
    exact jsJoin_not_contains ph.data ts.data hphd hind (jsSplit ph.data body.data)
      (jsSplitFuel_parts_free ph.data hphd body.data.length body.data (le_refl _)) hocc

theorem claim_c5_current_time_witness :
    tsIndep ctPlaceholder.data c5Ts.data ∧
    (applyDynamicReplacements ("Now: " ++ ctPlaceholder)
        [{ placeholder := ctPlaceholder, kind := .CURRENT_TIME }] c5Ts =
      String.mk (jsJoin c5Ts.data
        (jsSplit ctPlaceholder.data ("Now: " ++ ctPlaceholder).data)) ∧
    jsJoin ctPlaceholder.data (jsSplit ctPlaceholder.data ("Now: " ++ ctPlaceholder).data) =
      ("Now: " ++ ctPlaceholder).data ∧
    (∀ part ∈ jsSplit ctPlaceholder.data ("Now: " ++ ctPlaceholder).data,
      ¬ ctPlaceholder.data <:+: part) ∧
    ¬ occursIn ctPlaceholder (String.mk (jsJoin c5Ts.data
        (jsSplit ctPlaceholder.data ("Now: " ++ ctPlaceholder).data)))) :=
  ⟨by decide,
   claim_c5_current_time ("Now: " ++ ctPlaceholder) ctPlaceholder c5Ts
    (by decide) (by decide) (by decide)⟩

/-- C7 counterexample: with `alt` text `"$&"`, the stored content after
`add_asset` with `replace_placeholder` is not the page content with the
generated fragment substituted verbatim: JavaScript string replacement
expands `$&` to the matched placeholder, so the program stores a
different string than the claim asserts. -/
theorem claim_c7_counterexample :
    tool_add_asset c7CexState c7CexArgs =
      .ok { pages := [("/g",
              { content := "x<img src=\"/assets/images/pic.png\" alt=\"@@P@@\" />y",
                dynamic := [] })],
            layout := { header_html := "", footer_html := "" } } ∧
    ("x<img src=\"/assets/images/pic.png\" alt=\"@@P@@\" />y" : String) ≠
      "x" ++ imgHtml c7CexArgs (resolveAssetSrc "pic.png") ++ "y" := by
  constructor
  · decide
  · decide

/-- C7 (amended): `add_asset` with placement `replace_placeholder` and a
non-empty placeholder substitutes, for the first (leftmost) literal
occurrence of the placeholder in the page's current content, the
`GetSubstitution` expansion of the generated image-element fragment
against that match; the expansion is the fragment itself whenever the
fragment contains no dollar character; and the content is left entirely
unchanged when the placeholder does not occur in it. -/
theorem claim_c7_replace_placeholder (s : SiteState) (p a ph : String) (pg : Page)
    (hpath : jsStartsWith p "/" = true) (ha : a ≠ "") (hph : ph ≠ "")
    (hex : lookupPage s.pages p = some pg) :
    ∃ s2, tool_add_asset s (replaceArgs p a ph) = .ok s2 ∧
      lookupPage s2.pages p = some
        { content := jsReplaceFirst ph (imgHtml (replaceArgs p a ph) (resolveAssetSrc a))
            pg.content,
          dynamic := pg.dynamic } ∧
      (¬ occursIn ph pg.content →
        jsReplaceFirst ph (imgHtml (replaceArgs p a ph) (resolveAssetSrc a)) pg.content
          = pg.content) ∧
      (∀ pre post, findOcc ph.data pg.content.data = some (pre, post) →
        pg.content.data = pre ++ ph.data ++ post ∧
        (jsReplaceFirst ph (imgHtml (replaceArgs p a ph) (resolveAssetSrc a)) pg.content).data =
          pre ++ getSubstitution ph.data pre post
            (imgHtml (replaceArgs p a ph) (resolveAssetSrc a)).data ++ post ∧
        ('$' ∉ (imgHtml (replaceArgs p a ph) (resolveAssetSrc a)).data →
          getSubstitution ph.data pre post
            (imgHtml (replaceArgs p a ph) (resolveAssetSrc a)).data =
            (imgHtml (replaceArgs p a ph) (resolveAssetSrc a)).data) ∧
        (∀ pre2 post2, pg.content.data = pre2 ++ ph.data ++ post2 →
          pre.length ≤ pre2.length)) := by
  have hphd : ph.data ≠ [] := fun h => hph (string_ext h)
  refine ⟨{ s with pages := upsertPage s.pages p (fun pg0 =>
      { pg0 with content :=
          jsReplaceFirst ph (imgHtml (replaceArgs p a ph) (resolveAssetSrc a)) pg0.content }) },
    ?_, ?_, ?_, ?_⟩
  · simp [tool_add_asset, replaceArgs, getArg, hpath, ha, insertContent, hph]
  · rw [lookupPage_upsert_self, hex]
    rfl
  · intro hno
    have hnone : findOcc ph.data pg.content.data = none :=
      (findOcc_none_iff ph.data hphd pg.content.data).mpr hno
    rw [jsReplaceFirst, hnone]
  · intro pre post hfo
    refine ⟨findOcc_eq_some ph.data pg.content.data pre post hfo, ?_, ?_, ?_⟩
    · rw [jsReplaceFirst, hfo]
    · intro hnd
      exact getSubstitution_of_no_dollar ph.data pre post
        (imgHtml (replaceArgs p a ph) (resolveAssetSrc a)).data hnd
    · exact findOcc_leftmost ph.data pg.content.data pre post hfo

theorem claim_c7_replace_placeholder_witness :
    lookupPage [("/g", { content := "x@@P@@y", dynamic := [] })] "/g"
      = some { content := "x@@P@@y", dynamic := [] } ∧
    (∃ s2, tool_add_asset
        { pages := [("/g", { content := "x@@P@@y", dynamic := [] })],
          layout := { header_html := "", footer_html := "" } }
        (replaceArgs "/g" "pic.png" "@@P@@") = .ok s2 ∧
      lookupPage s2.pages "/g" = some
        { content := jsReplaceFirst "@@P@@"
            (imgHtml (replaceArgs "/g" "pic.png" "@@P@@") (resolveAssetSrc "pic.png")) "x@@P@@y",
          dynamic := [] } ∧
      (¬ occursIn "@@P@@" "x@@P@@y" →
        jsReplaceFirst "@@P@@"
            (imgHtml (replaceArgs "/g" "pic.png" "@@P@@") (resolveAssetSrc "pic.png")) "x@@P@@y"
          = "x@@P@@y") ∧
      (∀ pre post, findOcc ("@@P@@" : String).data ("x@@P@@y" : String).data = some (pre, post) →
        ("x@@P@@y" : String).data = pre ++ ("@@P@@" : String).data ++ post ∧
        (jsReplaceFirst "@@P@@"
            (imgHtml (replaceArgs "/g" "pic.png" "@@P@@") (resolveAssetSrc "pic.png"))
            "x@@P@@y").data =
          pre ++ getSubstitution ("@@P@@" : String).data pre post
            (imgHtml (replaceArgs "/g" "pic.png" "@@P@@") (resolveAssetSrc "pic.png")).data
            ++ post ∧
        ('$' ∉ (imgHtml (replaceArgs "/g" "pic.png" "@@P@@") (resolveAssetSrc "pic.png")).data →
          getSubstitution ("@@P@@" : String).data pre post
            (imgHtml (replaceArgs "/g" "pic.png" "@@P@@") (resolveAssetSrc "pic.png")).data =
            (imgHtml (replaceArgs "/g" "pic.png" "@@P@@") (resolveAssetSrc "pic.png")).data) ∧
        (∀ pre2 post2, ("x@@P@@y" : String).data = pre2 ++ ("@@P@@" : String).data ++ post2 →
          pre.length ≤ pre2.length))) :=
  ⟨by decide,
   claim_c7_replace_placeholder
    { pages := [("/g", { content := "x@@P@@y", dynamic := [] })],
      layout := { header_html := "", footer_html := "" } }
    "/g" "pic.png" "@@P@@" { content := "x@@P@@y", dynamic := [] }
    (by decide) (by decide) (by decide) (by decide)⟩
